import Mathlib

/-!
Verification development for the SGAR advocacy tool's entity-resolution and
render-filter pipeline.  The definitions below are a shallow embedding of the
JavaScript source: strings are modelled as Lean `String` (lists of characters),
the JS regular-expression operations used by the code (`\b`-delimited word
alternation replace, `\s+` collapse, `trim`, `toUpperCase`, `toLowerCase`,
`includes`) are implemented directly on character lists, and the resolver,
filter, style and loader functions are translated function by function from
`map-controller.js`, `sgar-tracker.js`, `utils.js` and `main.js`.
-/

namespace SgarTool

/-! ## Character-level primitives -/

/-- Model of the JS regex word-character class `\w` (ASCII letters, digits, underscore). -/
def isWordChar (c : Char) : Bool := c.isAlpha || c.isDigit || c == '_'

/-- Model of the JS whitespace class `\s` restricted to the whitespace
characters that can occur in the tool's data. -/
def isWsChar (c : Char) : Bool := c == ' ' || c == '\t' || c == '\n' || c == '\r'

/-- Model of `String.prototype.toUpperCase` on a single ASCII character. -/
def upChar (c : Char) : Char :=
  if 97 ≤ c.toNat ∧ c.toNat ≤ 122 then Char.ofNat (c.toNat - 32) else c

/-- Model of `String.prototype.toLowerCase` on a single ASCII character. -/
def lowChar (c : Char) : Char :=
  if 65 ≤ c.toNat ∧ c.toNat ≤ 90 then Char.ofNat (c.toNat + 32) else c

/-- `pfx n l` is true when `n` is an initial segment of `l`. -/
def pfx : List Char → List Char → Bool
  | [], _ => true
  | _ :: _, [] => false
  | a :: as, b :: bs => a == b && pfx as bs

/-- Model of `String.prototype.includes`: `incl hay needle` is true when
`needle` occurs contiguously inside `hay` (the empty needle always occurs). -/
def incl : List Char → List Char → Bool
  | [], n => n.isEmpty
  | h :: t, n => pfx n (h :: t) || incl t n

/-- Left part of `String.prototype.trim`. -/
def trimLeftL (l : List Char) : List Char := l.dropWhile isWsChar

/-- Right part of `String.prototype.trim`. -/
def trimRightL (l : List Char) : List Char := (l.reverse.dropWhile isWsChar).reverse

/-- Model of `String.prototype.trim`. -/
def trimL (l : List Char) : List Char := trimRightL (trimLeftL l)

/-- Model of `.replace(/\s+/g, ' ')`: every maximal run of whitespace becomes
a single space. -/
def collapseL : List Char → List Char
  | [] => []
  | [c] => if isWsChar c then [' '] else [c]
  | c :: d :: rest =>
    if isWsChar c then
      (if isWsChar d then collapseL (d :: rest) else ' ' :: collapseL (d :: rest))
    else c :: collapseL (d :: rest)

/-- A `\b` word boundary holds before a word character when the previous
character is absent or not a word character. -/
def boundaryOk : Option Char → Bool
  | none => true
  | some c => !isWordChar c

/-- One alternative of the qualifier regex matches at the head of `l` when it
is a non-empty literal prefix of `l` whose end also sits on a `\b` boundary. -/
def altMatch (a : List Char) (l : List Char) : Bool :=
  !a.isEmpty && pfx a l && boundaryOk ((l.drop a.length).head?)

/-- Fuel-indexed scanner for `.replace(/\b(w1|w2|...)\b/g, '')`: scan left to
right, at each boundary position try the alternatives in their listed order,
delete the first match and continue after it.  `prev` is the original
character immediately before the current position. -/
def stripF (alts : List (List Char)) : Nat → Option Char → List Char → List Char
  | 0, _, l => l
  | _ + 1, _, [] => []
  | fuel + 1, prev, c :: rest =>
    if boundaryOk prev then
      match alts.find? (fun a => altMatch a (c :: rest)) with
      | some a => stripF alts fuel a.getLast? ((c :: rest).drop a.length)
      | none => c :: stripF alts fuel (some c) rest
    else c :: stripF alts fuel (some c) rest

/-- Model of the global qualifier-word removal `replace`. -/
def stripL (alts : List (List Char)) (l : List Char) : List Char :=
  stripF alts l.length none l

/-! ## String-level wrappers -/

def upperS (s : String) : String := ⟨s.data.map upChar⟩

def lowerS (s : String) : String := ⟨s.data.map lowChar⟩

def trimS (s : String) : String := ⟨trimL s.data⟩

def collapseS (s : String) : String := ⟨collapseL s.data⟩

def inclS (hay needle : String) : Bool := incl hay.data needle.data

/-- The alternation used on the GIS candidate name in
`MapController.findCouncilByName`:
`/\b(CITY|SHIRE|REGIONAL|MUNICIPAL|COUNCIL|THE COUNCIL OF THE|MUNICIPALITY OF|CITY OF|SHIRE OF)\b/g`. -/
def gisQualifiers : List (List Char) :=
  ["CITY", "SHIRE", "REGIONAL", "MUNICIPAL", "COUNCIL",
   "THE COUNCIL OF THE", "MUNICIPALITY OF", "CITY OF", "SHIRE OF"].map String.data

/-- The alternation used on each catalog name in the same function:
`/\b(CITY|SHIRE|REGIONAL|MUNICIPAL|COUNCIL)\b/g`. -/
def councilQualifiers : List (List Char) :=
  ["CITY", "SHIRE", "REGIONAL", "MUNICIPAL", "COUNCIL"].map String.data

def stripGisS (s : String) : String := ⟨stripL gisQualifiers s.data⟩

def stripCouncilS (s : String) : String := ⟨stripL councilQualifiers s.data⟩

/-! ## Data model -/

/-- A catalog record as built by the `SGARTracker` constructor.  `status` is
`data.sgars` taken verbatim (an `Option` because the raw field may be
missing, which in JS leaves `undefined` in the record). -/
structure Council where
  name : String
  status : Option String
  region : String
  notes : String
  contactEmail : String
  lastUpdated : String
deriving DecidableEq, Repr

/-- A raw per-council entry of the status-catalog input document; `none`
models an absent field. -/
structure RawCouncilData where
  sgars : Option String
  notes : Option String
  email : Option String
deriving DecidableEq, Repr

/-- Result shape of `validateCouncilData` in `utils.js`. -/
structure ValidationResult where
  isValid : Bool
  errors : List String
deriving DecidableEq, Repr

/-- The `this.filters` object passed from `SGARTracker` to the map filter. -/
structure Filters where
  status : List String
  region : List String
  search : String
deriving DecidableEq, Repr

/-- An rgba color; the alpha channel is kept in hundredths so that the
source's decimal literals (0.7 etc.) stay exact. -/
structure Rgba where
  r : Nat
  g : Nat
  b : Nat
  aCent : Nat
deriving DecidableEq, Repr

/-- Return shape of `MapController.getStatusColors`. -/
structure StatusColors where
  fill : Rgba
  border : Option String
  hover : Rgba
deriving DecidableEq, Repr

/-- An OpenLayers style as the source constructs it: an optional stroke
(color, width) and an optional fill color.  `new ol.style.Style({})` has
neither. -/
structure OlStyle where
  stroke : Option (String × Nat)
  fill : Option Rgba
deriving DecidableEq, Repr

/-! ## utils.js -/

/-- Scanner for `titleCase`: the source lowercases the whole string and then
uppercases every word character that follows a `\b` boundary
(`str.toLowerCase().replace(/\b\w/g, l => l.toUpperCase())`). -/
def titleCaseF : Option Char → List Char → List Char
  | _, [] => []
  | prev, c :: rest =>
    (if boundaryOk prev && isWordChar (lowChar c) then upChar (lowChar c) else lowChar c) ::
      titleCaseF (some (lowChar c)) rest

/-- Model of `titleCase` from `utils.js`. -/
def titleCase (s : String) : String :=
  if s = "" then "" else ⟨titleCaseF none s.data⟩

/-- Characters admitted by the `[^\s@]` classes of the email regex. -/
def emailOkChar (c : Char) : Bool := !isWsChar c && c != '@'

/-- Model of `isValidEmail` — the regex `/^[^\s@]+@[^\s@]+\.[^\s@]+$/`:
a non-empty `@`-free, space-free local part, exactly one `@`, and a
non-empty domain part containing a dot at an interior position. -/
def isValidEmailS (email : String) : Bool :=
  let l := email.data
  let before := l.takeWhile (fun c => c != '@')
  let after := (l.dropWhile (fun c => c != '@')).drop 1
  !before.isEmpty && before.all emailOkChar &&
    !after.isEmpty && after.all emailOkChar &&
    ((after.drop 1).dropLast).contains '.'

def validStatuses : List String := ["Yes", "No", "Unknown"]

/-- `Array.prototype.join(', ')`. -/
def joinComma : List String → String
  | [] => ""
  | [s] => s
  | s :: rest => s ++ ", " ++ joinComma rest

/-- Model of `validateCouncilData` from `utils.js`: required-field checks in
source order, then the SGAR-status check (skipped for a falsy `sgars`
value), then the email-format check (skipped for a falsy `email`). -/
def validateCouncilData (d : RawCouncilData) : ValidationResult :=
  let missing :=
    (if d.sgars.isNone then ["Missing required field: sgars"] else []) ++
      (if d.notes.isNone then ["Missing required field: notes"] else []) ++
      (if d.email.isNone then ["Missing required field: email"] else [])
  let statusErr :=
    match d.sgars with
    | some s =>
      if s != "" && !validStatuses.contains s then
        ["Invalid SGAR status: " ++ s ++ ". Must be one of: " ++ joinComma validStatuses]
      else []
    | none => []
  let emailErr :=
    match d.email with
    | some e => if e != "" && !isValidEmailS e then ["Invalid email format: " ++ e] else []
    | none => []
  let errors := missing ++ statusErr ++ emailErr
  ⟨errors.isEmpty, errors⟩

/-- `criteria.status.includes(council.status)` with strict `===` equality:
an `undefined` status is never a member of a list of strings. -/
def statusIncludes (l : List String) (st : Option String) : Bool :=
  match st with
  | some s => l.contains s
  | none => false

/-- The searchable text of `filterCouncils` in `utils.js`:
`[name, region, notes, contactEmail].join(' ')`. -/
def utilsSearchText (c : Council) : String :=
  c.name ++ " " ++ c.region ++ " " ++ c.notes ++ " " ++ c.contactEmail

/-- The per-council predicate of `filterCouncils` from `utils.js`. -/
def utilsFilterPred (criteria : Filters) (c : Council) : Bool :=
  if !criteria.status.isEmpty && !statusIncludes criteria.status c.status then false
  else if !criteria.region.isEmpty && !criteria.region.contains c.region then false
  else if criteria.search != "" then
    inclS (lowerS (utilsSearchText c)) (lowerS criteria.search)
  else true

/-- Model of `filterCouncils` from `utils.js`. -/
def filterCouncils (councils : List Council) (criteria : Filters) : List Council :=
  councils.filter (utilsFilterPred criteria)

/-! ## sgar-tracker.js -/

/-- The region table of `getCouncilRegion`, in source (insertion) order. -/
def regionTable : List (String × List String) := [
  ("Hunter", ["CENTRAL COAST", "CESSNOCK", "DUNGOG", "LAKE MACQUARIE", "MAITLAND",
    "MUSWELLBROOK", "NEWCASTLE", "PORT STEPHENS", "SINGLETON", "UPPER HUNTER"]),
  ("Illawarra", ["KIAMA", "SHELLHARBOUR", "SHOALHAVEN", "WINGECARRIBEE", "WOLLONDILLY",
    "WOLLONGONG"]),
  ("Metro North", ["HORNSBY", "HUNTERS HILL", "KU-RING-GAI", "LANE COVE", "MOSMAN",
    "NORTH SYDNEY", "NORTHERN BEACHES", "RYDE", "THE HILLS SHIRE", "WILLOUGHBY"]),
  ("Metro South", ["BAYSIDE", "BURWOOD", "CANADA BAY", "CANTERBURY-BANKSTOWN",
    "GEORGES RIVER", "INNER WEST", "RANDWICK", "STRATHFIELD", "SUTHERLAND SHIRE",
    "SYDNEY", "WAVERLEY", "WOOLLAHRA"]),
  ("Metro West", ["BLACKTOWN", "BLUE MOUNTAINS", "CAMDEN", "CAMPBELLTOWN",
    "CITY OF PARRAMATTA", "CUMBERLAND", "FAIRFIELD", "HAWKESBURY", "LIVERPOOL",
    "PENRITH"]),
  ("Mid North Coast", ["BELLINGEN", "COFFS HARBOUR", "KEMPSEY", "MID-COAST",
    "NAMBUCCA VALLEY", "PORT MACQUARIE-HASTINGS"]),
  ("North Coast", ["BALLINA", "BYRON", "CLARENCE VALLEY", "KYOGLE", "LISMORE",
    "RICHMOND VALLEY", "TWEED"]),
  ("Northern Inland", ["ARMIDALE REGIONAL", "GLEN INNES SEVERN", "GUNNEDAH", "GWYDIR",
    "INVERELL", "LIVERPOOL PLAINS", "MOREE PLAINS", "NARRABRI", "TAMWORTH REGIONAL",
    "TENTERFIELD", "URALLA", "WALCHA"]),
  ("Central West", ["BATHURST REGIONAL", "BLAYNEY", "CABONNE", "COWRA", "FORBES",
    "LACHLAN", "LITHGOW CITY", "OBERON", "ORANGE", "PARKES", "WEDDIN"]),
  ("Orana", ["BOGAN", "BOURKE", "BREWARRINA", "BROKEN HILL", "CENTRAL DARLING",
    "COBAR", "COONAMBLE", "DUBBO REGIONAL", "GILGANDRA", "MID-WESTERN REGIONAL",
    "NARROMINE", "WALGETT", "WARREN", "WARRUMBUNGLE"]),
  ("South East", ["BEGA VALLEY", "EUROBODALLA", "GOULBURN MULWAREE",
    "QUEANBEYAN-PALERANG REGIONAL", "SNOWY MONARO REGIONAL", "UPPER LACHLAN SHIRE",
    "YASS VALLEY"]),
  ("South West", ["ALBURY CITY", "BALRANALD", "BERRIGAN", "BLAND", "CARRATHOOL",
    "COOLAMON", "COOTAMUNDRA-GUNDAGAI REGIONAL", "EDWARD RIVER", "FEDERATION",
    "GREATER HUME SHIRE", "GRIFFITH", "HAY", "HILLTOPS", "JUNEE", "LEETON",
    "LOCKHART", "MURRAY RIVER", "MURRUMBIDGEE", "NARRANDERA", "SNOWY VALLEYS",
    "TEMORA", "WAGGA WAGGA", "WENTWORTH"])]

/-- Model of `getCouncilRegion` from `sgar-tracker.js`. -/
def getCouncilRegion (councilName : String) : String :=
  match regionTable.find? (fun p => p.2.contains (upperS councilName)) with
  | some p => p.1
  | none => "Other"

/-- The `SGARTracker` constructor's transformation of the raw catalog input
into `this.councils` (an absent `notes`/`email` field would be `undefined`
in the source; it is modelled as the empty string, a corner no claim
depends on). -/
def buildCouncils (raw : List (String × RawCouncilData)) : List Council :=
  raw.map (fun p =>
    { name := titleCase p.1
      status := p.2.sgars
      region := getCouncilRegion p.1
      notes := p.2.notes.getD ""
      contactEmail := p.2.email.getD ""
      lastUpdated := "2025-01-22" })

/-- The per-council predicate of `SGARTracker.getFilteredCouncils`: status
and region constraints short-circuit to `false`; a truthy search returns the
disjunction of three per-field substring tests. -/
def trackerFilterPred (f : Filters) (c : Council) : Bool :=
  if !f.status.isEmpty && !statusIncludes f.status c.status then false
  else if !f.region.isEmpty && !f.region.contains c.region then false
  else if f.search != "" then
    inclS (lowerS c.name) (lowerS f.search) ||
      inclS (lowerS c.region) (lowerS f.search) ||
      inclS (lowerS c.notes) (lowerS f.search)
  else true

/-- Model of `SGARTracker.getFilteredCouncils`. -/
def getFilteredCouncils (councils : List Council) (f : Filters) : List Council :=
  councils.filter (trackerFilterPred f)

/-! ## map-controller.js — name resolution -/

/-- The reverse index built inside `findCouncilByName`: object assignment in
entry order, so for a duplicated value the last entry wins. -/
def reverseLookup (m : List (String × String)) (g : String) : Option String :=
  (m.reverse.find? (fun p => p.2 == g)).map Prod.fst

/-- The truthiness test `if (reverseMapping[gisName])`: a hit needs the table
to be present, the exact (case-sensitive) key to exist, and the mapped name
to be a non-empty string. -/
def mappingHit (m : Option (List (String × String))) (g : String) : Option String :=
  match m with
  | none => none
  | some mp =>
    match reverseLookup mp g with
    | none => none
    | some k => if k = "" then none else some k

/-- The catalog lookup performed on a reverse-index hit: case-insensitive
exact match, or case-insensitive match after collapsing whitespace runs. -/
def mappingFind (councils : List Council) (ourName : String) : Option Council :=
  councils.find? (fun c =>
    upperS c.name == upperS ourName ||
      collapseS (upperS c.name) == collapseS (upperS ourName))

/-- The normalization applied to the GIS candidate in the fuzzy fallback:
uppercase, trim, strip the qualifier vocabulary, collapse whitespace, trim. -/
def normalizeGis (s : String) : String :=
  trimS (collapseS (stripGisS (trimS (upperS s))))

/-- The cleaning applied to each (already uppercased) catalog name. -/
def cleanCouncilName (n : String) : String :=
  trimS (collapseS (stripCouncilS n))

/-- The per-council predicate of the fuzzy fallback: exact uppercase match,
or equality / substring containment (both directions) of the cleaned names. -/
def fuzzyPred (g : String) (c : Council) : Bool :=
  upperS c.name == trimS (upperS g) ||
    (cleanCouncilName (upperS c.name) == normalizeGis g ||
      inclS (cleanCouncilName (upperS c.name)) (normalizeGis g) ||
      inclS (normalizeGis g) (cleanCouncilName (upperS c.name)))

/-- The fuzzy fallback of `findCouncilByName`. -/
def fuzzyFind (councils : List Council) (g : String) : Option Council :=
  councils.find? (fuzzyPred g)

/-- Model of `MapController.findCouncilByName`: falsy input returns null; a
truthy reverse-index hit returns the catalog lookup result directly (even
when that lookup misses); otherwise the fuzzy fallback runs. -/
def findCouncilByName (m : Option (List (String × String))) (councils : List Council)
    (gisName : Option String) : Option Council :=
  match gisName with
  | none => none
  | some g =>
    if g = "" then none
    else
      match mappingHit m g with
      | some k => mappingFind councils k
      | none => fuzzyFind councils g

/-- Model of `MapController.loadNameMapping`: a failed fetch is caught and
leaves `this.nameMapping` null. -/
def loadNameMapping (result : Except String (List (String × String))) :
    Option (List (String × String)) :=
  match result with
  | Except.ok mp => some mp
  | Except.error _ => none

/-! ## map-controller.js — styles and render pipeline -/

/-- Model of `MapController.getStatusColors` (hover-aware version). -/
def getStatusColors (status : Option String) (isHover : Bool) : StatusColors :=
  if status = some "Yes" then
    { fill := if isHover then ⟨220, 53, 69, 80⟩ else ⟨220, 53, 69, 70⟩
      border := none
      hover := ⟨220, 53, 69, 85⟩ }
  else if status = some "No" then
    { fill := if isHover then ⟨40, 167, 69, 80⟩ else ⟨40, 167, 69, 70⟩
      border := none
      hover := ⟨40, 167, 69, 85⟩ }
  else
    { fill := if isHover then ⟨108, 117, 125, 70⟩ else ⟨108, 117, 125, 60⟩
      border := none
      hover := ⟨108, 117, 125, 75⟩ }

/-- `MapController.getDefaultStyle`: light gray fill with a thin gray border. -/
def getDefaultStyle : OlStyle := ⟨some ("#cccccc", 1), some ⟨200, 200, 200, 10⟩⟩

/-- `new ol.style.Style({})`: no stroke and no fill, so nothing is drawn. -/
def emptyStyle : OlStyle := ⟨none, none⟩

/-- The inline unmapped style of `getLGAStyle`: a barely visible fill, no
border. -/
def lgaUnmappedStyle : OlStyle := ⟨none, some ⟨248, 249, 250, 40⟩⟩

/-- The priority-ordered property keys probed for the LGA name. -/
def lgaNameKeys : List String :=
  ["lga_name_2021", "lga_name", "LGA_NAME", "name", "NAME", "lga_nam11",
   "lga_name16", "LGA_NAME22", "lgaName", "LGA_NAM"]

/-- `feature.get(key)` over a property bag. -/
def getProp (f : List (String × String)) (k : String) : Option String :=
  (f.find? (fun p => p.1 == k)).map Prod.snd

/-- The chained `feature.get('lga_name_2021') || feature.get('lga_name') || ...`
lookup: first key whose value is present and truthy (non-empty). -/
def extractName (f : List (String × String)) : Option String :=
  (lgaNameKeys.filterMap (fun k =>
    match getProp f k with
    | some v => if v = "" then none else some v
    | none => none)).head?

/-- Model of `MapController.getLGAStyle` (the base style function): unmapped
features get the pale inline default; mapped features get a borderless fill
in the status color. -/
def getLGAStyle (m : Option (List (String × String))) (councils : List Council)
    (f : List (String × String)) : OlStyle :=
  match findCouncilByName m councils (extractName f) with
  | none => lgaUnmappedStyle
  | some c => ⟨none, some (getStatusColors c.status false).fill⟩

/-- Model of the style closure installed by `MapController.applyFilter`:
unmapped features get `getDefaultStyle`; a resolved council failing the
status filter gets the empty (invisible) style; otherwise `getLGAStyle`. -/
def applyFilterStyle (filter : Filters) (m : Option (List (String × String)))
    (councils : List Council) (f : List (String × String)) : OlStyle :=
  match findCouncilByName m councils (extractName f) with
  | none => getDefaultStyle
  | some c =>
    if !filter.status.isEmpty && !statusIncludes filter.status c.status then emptyStyle
    else getLGAStyle m councils f

/-! ## main.js -/

/-- The validation-warning collection loop of `initializeApp`. -/
def initWarnings (raw : List (String × RawCouncilData)) : List String :=
  raw.foldr
    (fun p acc =>
      let v := validateCouncilData p.2
      if v.isValid then acc else (p.1 ++ ": " ++ joinComma v.errors) :: acc)
    []

/-- One result record of `initializeApp`: the collected validation warnings
(which are only logged by the source) and the constructed catalog. -/
structure InitResult where
  warnings : List String
  councils : List Council
deriving DecidableEq, Repr

/-- Model of `initializeApp` from `main.js`: empty input is a fatal load
error; otherwise validation problems are collected as warnings and the
catalog is constructed regardless. -/
def initApp (raw : List (String × RawCouncilData)) : Except String InitResult :=
  if raw.isEmpty then Except.error "Failed to load council data"
  else Except.ok ⟨initWarnings raw, buildCouncils raw⟩

instance {ε α : Type} [DecidableEq ε] [DecidableEq α] : DecidableEq (Except ε α) :=
  fun a b =>
    match a, b with
    | Except.error x, Except.error y =>
      if h : x = y then Decidable.isTrue (by rw [h])
      else Decidable.isFalse (fun hc => h (Except.error.inj hc))
    | Except.ok x, Except.ok y =>
      if h : x = y then Decidable.isTrue (by rw [h])
      else Decidable.isFalse (fun hc => h (Except.ok.inj hc))
    | Except.error _, Except.ok _ => Decidable.isFalse (fun hc => Except.noConfusion hc)
    | Except.ok _, Except.error _ => Decidable.isFalse (fun hc => Except.noConfusion hc)

/-! ## Auxiliary predicates used by the verification -/

/-- A color is in the red family when red strictly dominates both other
channels. -/
def redFamily (c : Rgba) : Prop := c.g < c.r ∧ c.b < c.r

/-- A color is in the green family when green strictly dominates both other
channels. -/
def greenFamily (c : Rgba) : Prop := c.r < c.g ∧ c.b < c.g

/-- A color is neutral (gray-ish) when all three channels are within 20 of
each other. -/
def neutralFamily (c : Rgba) : Prop :=
  c.r ≤ c.g + 20 ∧ c.g ≤ c.r + 20 ∧ c.g ≤ c.b + 20 ∧ c.b ≤ c.g + 20 ∧
    c.r ≤ c.b + 20 ∧ c.b ≤ c.r + 20

/-- Characterization of the strings fixed by `collapseL`: every whitespace
character is a plain space and no two whitespace characters are adjacent. -/
def wsNormd : List Char → Bool
  | [] => true
  | [c] => !isWsChar c || c == ' '
  | c :: d :: rest => (!isWsChar c || (c == ' ' && !isWsChar d)) && wsNormd (d :: rest)

/-! ## Concrete records used by witnesses and counterexamples -/

def lithgowRec : Council :=
  ⟨"LITHGOW CITY", some "Unknown", "Central West", "n", "c@l.co", "2025-01-22"⟩

def sydneyRec : Council :=
  ⟨"Sydney", some "Yes", "Metro South", "n", "c@s.co", "2025-01-22"⟩

def cityOfSydneyRec : Council :=
  ⟨"City Of Sydney", some "Yes", "Other", "n", "c@c.co", "2025-01-22"⟩

def theOfRec : Council :=
  ⟨"The Of", some "No", "Other", "n", "c@t.co", "2025-01-22"⟩

def alphaRec : Council :=
  ⟨"Alpha", some "Yes", "Beta", "x", "a@b.co", "2025-01-22"⟩

def sydneyMapping : List (String × String) :=
  [("SYDNEY", "Council of the City of Sydney")]

def badStatusRaw : RawCouncilData := ⟨some "Maybe", some "n", some "a@b.co"⟩

/-! ## Helper lemmas -/

theorem incl_nil (l : List Char) : incl l [] = true := by
  induction l with
  | nil => rfl
  | cons h t ih => simp [incl, pfx]

theorem inclS_empty (s : String) : inclS s "" = true := incl_nil s.data

theorem char_toNat_ofNat_small (n : Nat) (h : n < 55296) : (Char.ofNat n).toNat = n := by
  have hv : n.isValidChar := Or.inl h
  simp only [Char.ofNat, hv, dite_true, Char.ofNatAux, Char.toNat, UInt32.toNat]
  rfl

theorem mem_dropWhile {p : Char → Bool} {c : Char} :
    ∀ {l : List Char}, c ∈ l.dropWhile p → c ∈ l := by
  intro l
  induction l with
  | nil => intro h; simp at h
  | cons a t ih =>
    intro h
    by_cases hp : p a
    · rw [List.dropWhile_cons, if_pos hp] at h
      exact List.mem_cons_of_mem a (ih h)
    · rwa [List.dropWhile_cons, if_neg hp] at h

theorem mem_trimL {c : Char} {l : List Char} (h : c ∈ trimL l) : c ∈ l := by
  have h1 : c ∈ (trimLeftL l).reverse.dropWhile isWsChar := List.mem_reverse.mp h
  have h2 : c ∈ trimLeftL l := List.mem_reverse.mp (mem_dropWhile h1)
  exact mem_dropWhile h2

theorem mem_collapseL {c : Char} : ∀ {l : List Char}, c ∈ collapseL l → c ∈ l ∨ c = ' ' := by
  intro l
  induction l using collapseL.induct with
  | case1 => intro h; simp [collapseL] at h
  | case2 d hd =>
    intro h
    simp [collapseL, hd] at h
    exact Or.inr h
  | case3 d hd =>
    intro h
    simp [collapseL, hd] at h
    exact Or.inl (by simp [h])
  | case4 d e rest hd he ih =>
    intro h
    rw [collapseL, if_pos hd, if_pos he] at h
    exact (ih h).imp (List.mem_cons_of_mem d) id
  | case5 d e rest hd he ih =>
    intro h
    rw [collapseL, if_pos hd, if_neg he] at h
    rcases List.mem_cons.mp h with h | h
    · exact Or.inr h
    · exact (ih h).imp (List.mem_cons_of_mem d) id
  | case6 d e rest hd ih =>
    intro h
    rw [collapseL, if_neg hd] at h
    rcases List.mem_cons.mp h with h | h
    · exact Or.inl (by simp [h])
    · exact (ih h).imp (List.mem_cons_of_mem d) id

theorem mem_stripF {alts : List (List Char)} {c : Char} :
    ∀ (fuel : Nat) (prev : Option Char) (l : List Char), c ∈ stripF alts fuel prev l → c ∈ l := by
  intro fuel
  induction fuel with
  | zero => intro prev l h; simpa [stripF] using h
  | succ n ih =>
    intro prev l h
    cases l with
    | nil => simp [stripF] at h
    | cons a t =>
      by_cases hb : boundaryOk prev = true
      · rcases hfind : alts.find? (fun a' => altMatch a' (a :: t)) with _ | af
        · rw [stripF, if_pos hb, hfind] at h
          rcases List.mem_cons.mp h with h | h
          · exact h ▸ List.mem_cons_self a t
          · exact List.mem_cons_of_mem a (ih _ _ h)
        · rw [stripF, if_pos hb, hfind] at h
          exact List.drop_subset _ _ (ih _ _ h)
      · rw [stripF, if_neg hb] at h
        rcases List.mem_cons.mp h with h | h
        · exact h ▸ List.mem_cons_self a t
        · exact List.mem_cons_of_mem a (ih _ _ h)

theorem map_fixed {f : Char → Char} :
    ∀ {l : List Char}, (∀ c ∈ l, f c = c) → l.map f = l := by
  intro l
  induction l with
  | nil => intro _; rfl
  | cons a t ih =>
    intro h
    rw [List.map_cons, h a (by simp), ih (fun c hc => h c (by simp [hc]))]

theorem upChar_idem (c : Char) : upChar (upChar c) = upChar c := by
  by_cases h : 97 ≤ c.toNat ∧ c.toNat ≤ 122
  · have h1 : (Char.ofNat (c.toNat - 32)).toNat = c.toNat - 32 :=
      char_toNat_ofNat_small _ (by omega)
    simp only [upChar, if_pos h, h1]
    rw [if_neg]
    omega
  · simp only [upChar, if_neg h]

theorem upChar_space : upChar ' ' = ' ' := by decide

theorem upChar_fixed_of_mem_normalized {x : String} {c : Char}
    (h : c ∈ (normalizeGis x).data) : upChar c = c := by
  have h1 : c ∈ (collapseS (stripGisS (trimS (upperS x)))).data := mem_trimL h
  rcases mem_collapseL h1 with h2 | h2
  · have h3 : c ∈ (trimS (upperS x)).data := mem_stripF _ _ _ h2
    have h4 : c ∈ x.data.map upChar := mem_trimL h3
    rcases List.mem_map.mp h4 with ⟨d, _, rfl⟩
    exact upChar_idem d
  · rw [h2]
    exact upChar_space

theorem upperS_normalizeGis (x : String) : upperS (normalizeGis x) = normalizeGis x := by
  show (⟨(normalizeGis x).data.map upChar⟩ : String) = normalizeGis x
  rw [map_fixed (fun c hc => upChar_fixed_of_mem_normalized hc)]

theorem dropWhile_idem (p : Char → Bool) (l : List Char) :
    (l.dropWhile p).dropWhile p = l.dropWhile p := by
  induction l with
  | nil => rfl
  | cons a t ih =>
    by_cases hp : p a
    · rw [List.dropWhile_cons, if_pos hp, ih]
    · rw [List.dropWhile_cons, if_neg hp, List.dropWhile_cons, if_neg hp]

theorem dropWhile_suffix_decomp (p : Char → Bool) (l : List Char) :
    ∃ s, l = s ++ l.dropWhile p := by
  induction l with
  | nil => exact ⟨[], rfl⟩
  | cons a t ih =>
    by_cases hp : p a
    · rcases ih with ⟨s, hs⟩
      refine ⟨a :: s, ?_⟩
      rw [List.dropWhile_cons, if_pos hp, List.cons_append, ← hs]
    · refine ⟨[], ?_⟩
      rw [List.dropWhile_cons, if_neg hp, List.nil_append]

theorem dropWhile_head_false {p : Char → Bool} :
    ∀ {l : List Char} {a : Char} {t : List Char}, l.dropWhile p = a :: t → p a = false := by
  intro l
  induction l with
  | nil => intro a t h; simp at h
  | cons b u ih =>
    intro a t h
    by_cases hp : p b
    · rw [List.dropWhile_cons, if_pos hp] at h
      exact ih h
    · rw [List.dropWhile_cons, if_neg hp] at h
      rw [← (List.cons.inj h).1]
      exact Bool.of_not_eq_true hp

theorem trimRightL_decomp (l : List Char) : ∃ s, l = trimRightL l ++ s := by
  rcases dropWhile_suffix_decomp isWsChar l.reverse with ⟨s, hs⟩
  refine ⟨s.reverse, ?_⟩
  have h := congrArg List.reverse hs
  rw [List.reverse_reverse, List.reverse_append] at h
  exact h

theorem trimRightL_idem (l : List Char) : trimRightL (trimRightL l) = trimRightL l := by
  unfold trimRightL
  rw [List.reverse_reverse, dropWhile_idem]

theorem trimL_idem (l : List Char) : trimL (trimL l) = trimL l := by
  show trimRightL (trimLeftL (trimRightL (trimLeftL l))) = trimRightL (trimLeftL l)
  have h1 : trimLeftL (trimRightL (trimLeftL l)) = trimRightL (trimLeftL l) := by
    rcases hm : trimRightL (trimLeftL l) with _ | ⟨a, t⟩
    · rfl
    · rcases trimRightL_decomp (trimLeftL l) with ⟨s, hs⟩
      rw [hm] at hs
      have hdw : l.dropWhile isWsChar = a :: (t ++ s) := by
        rw [show l.dropWhile isWsChar = trimLeftL l from rfl, hs, List.cons_append]
      have ha : isWsChar a = false := dropWhile_head_false hdw
      show (a :: t).dropWhile isWsChar = a :: t
      rw [List.dropWhile_cons, if_neg (by simp [ha])]
  rw [h1, trimRightL_idem]

theorem trimS_normalizeGis (x : String) : trimS (normalizeGis x) = normalizeGis x := by
  show (⟨trimL (normalizeGis x).data⟩ : String) = normalizeGis x
  have h : trimL (normalizeGis x).data = (normalizeGis x).data := trimL_idem _
  rw [h]

theorem wsNormd_tail {c : Char} {t : List Char} (h : wsNormd (c :: t) = true) :
    wsNormd t = true := by
  cases t with
  | nil => rfl
  | cons d u =>
    rw [wsNormd] at h
    exact (Bool.and_eq_true_iff.mp h).2

theorem collapseL_fixed : ∀ {l : List Char}, wsNormd l = true → collapseL l = l := by
  intro l
  induction l using collapseL.induct with
  | case1 => intro _; rfl
  | case2 c hc =>
    intro h
    have hsp : c = ' ' := by
      rw [wsNormd] at h
      simpa [hc] using h
    rw [collapseL, if_pos hc, hsp]
  | case3 c hc =>
    intro _
    rw [collapseL, if_neg hc]
  | case4 c d rest hc hd ih =>
    intro h
    exfalso
    rw [wsNormd] at h
    simp [hc, hd] at h
  | case5 c d rest hc hd ih =>
    intro h
    have hsp : c = ' ' := by
      rw [wsNormd] at h
      simpa [hc, hd] using (Bool.and_eq_true_iff.mp h).1
    rw [collapseL, if_pos hc, if_neg hd, ih (wsNormd_tail h), hsp]
  | case6 c d rest hc ih =>
    intro h
    rw [collapseL, if_neg hc, ih (wsNormd_tail h)]

theorem collapseL_head_of_not_ws {d : Char} (rest : List Char) (hd : ¬isWsChar d = true) :
    ∃ z, collapseL (d :: rest) = d :: z := by
  cases rest with
  | nil => exact ⟨[], by rw [collapseL, if_neg hd]⟩
  | cons e u => exact ⟨collapseL (e :: u), by rw [collapseL, if_neg hd]⟩

theorem wsNormd_cons_not_ws {c : Char} {z : List Char} (hc : ¬isWsChar c = true)
    (hz : wsNormd z = true) : wsNormd (c :: z) = true := by
  cases z with
  | nil => simp [wsNormd, hc]
  | cons d u =>
    rw [wsNormd]
    simp [hc, hz]

theorem wsNormd_collapseL : ∀ (l : List Char), wsNormd (collapseL l) = true := by
  intro l
  induction l using collapseL.induct with
  | case1 => rfl
  | case2 c hc =>
    rw [collapseL, if_pos hc]
    rfl
  | case3 c hc =>
    rw [collapseL, if_neg hc]
    simp [wsNormd, hc]
  | case4 c d rest hc hd ih =>
    rw [collapseL, if_pos hc, if_pos hd]
    exact ih
  | case5 c d rest hc hd ih =>
    rw [collapseL, if_pos hc, if_neg hd]
    rcases collapseL_head_of_not_ws rest hd with ⟨z, hz⟩
    rw [hz]
    rw [hz] at ih
    rw [wsNormd]
    simp [hd, ih]
  | case6 c d rest hc ih =>
    rw [collapseL, if_neg hc]
    exact wsNormd_cons_not_ws hc ih

theorem wsNormd_append_right :
    ∀ (l1 l2 : List Char), wsNormd (l1 ++ l2) = true → wsNormd l2 = true := by
  intro l1
  induction l1 with
  | nil => intro l2 h; exact h
  | cons a t ih => intro l2 h; exact ih l2 (wsNormd_tail h)

theorem wsNormd_append_left :
    ∀ (l1 l2 : List Char), wsNormd (l1 ++ l2) = true → wsNormd l1 = true := by
  intro l1
  induction l1 with
  | nil => intro _ _; rfl
  | cons a t ih =>
    intro l2 h
    cases t with
    | nil =>
      cases l2 with
      | nil => exact h
      | cons b u =>
        simp only [List.cons_append, List.nil_append] at h
        rw [wsNormd] at h
        have h1 := (Bool.and_eq_true_iff.mp h).1
        rw [wsNormd]
        by_cases hw : isWsChar a
        · simp [hw] at h1 ⊢
          exact h1.1
        · simp [hw]
    | cons b u =>
      have h2 : wsNormd (b :: u) = true := ih l2 (wsNormd_tail h)
      simp only [List.cons_append] at h
      rw [wsNormd] at h
      have h1 := (Bool.and_eq_true_iff.mp h).1
      rw [wsNormd]
      rw [h1, h2]
      rfl

theorem wsNormd_trimL {l : List Char} (h : wsNormd l = true) : wsNormd (trimL l) = true := by
  have h1 : wsNormd (trimLeftL l) = true := by
    rcases dropWhile_suffix_decomp isWsChar l with ⟨s, hs⟩
    refine wsNormd_append_right s (trimLeftL l) ?_
    have hcast : (s ++ trimLeftL l : List Char) = s ++ l.dropWhile isWsChar := rfl
    rw [hcast, ← hs]
    exact h
  rcases trimRightL_decomp (trimLeftL l) with ⟨s, hs⟩
  refine wsNormd_append_left (trimL l) s ?_
  have hcast : (trimL l ++ s : List Char) = trimRightL (trimLeftL l) ++ s := rfl
  rw [hcast, ← hs]
  exact h1

theorem collapseS_normalizeGis (x : String) : collapseS (normalizeGis x) = normalizeGis x := by
  show (⟨collapseL (normalizeGis x).data⟩ : String) = normalizeGis x
  have h : wsNormd (normalizeGis x).data = true := wsNormd_trimL (wsNormd_collapseL _)
  rw [collapseL_fixed h]

/-! ### Claim theorems (simple resolver and style claims) -/

/-- C5: when the name-mapping load fails, the mapping table is absent and
resolution proceeds with the fuzzy fallback only (after the usual guard for
a falsy candidate); the failure is absorbed, not propagated. -/
theorem degraded_mode_fuzzy_only (msg : String) (cs : List Council) (g : Option String) :
    findCouncilByName (loadNameMapping (Except.error msg)) cs g =
      match g with
      | none => none
      | some s => if s = "" then none else fuzzyFind cs s := by
  cases g with
  | none => rfl
  | some s => rfl

/-- C6: resolving a null candidate name or the empty string returns NotFound
(`null` in the source), for every mapping table and catalog. -/
theorem resolve_null_or_empty (m : Option (List (String × String))) (cs : List Council) :
    findCouncilByName m cs none = none ∧ findCouncilByName m cs (some "") = none := by
  refine ⟨rfl, ?_⟩
  simp [findCouncilByName]

/-- C7: with catalog id `"LITHGOW CITY"` and no mapping entry for it,
`resolve("Lithgow City Council")` returns that record through qualifier
stripping and the equality-or-substring comparison. -/
theorem resolve_lithgow_concrete :
    findCouncilByName (some sydneyMapping) [sydneyRec, lithgowRec]
      (some "Lithgow City Council") = some lithgowRec := by
  decide

/-- C9: for every status value (including a missing one), the hover fill has
exactly the same RGB components as the non-hover fill and an alpha raised by
a fixed 0.10; the non-hover fill is red-family for `Yes`, green-family for
`No`, and neutral gray otherwise. -/
theorem status_colors_families (st : Option String) :
    ((getStatusColors st true).fill.r = (getStatusColors st false).fill.r ∧
      (getStatusColors st true).fill.g = (getStatusColors st false).fill.g ∧
      (getStatusColors st true).fill.b = (getStatusColors st false).fill.b ∧
      (getStatusColors st true).fill.aCent = (getStatusColors st false).fill.aCent + 10) ∧
    (if st = some "Yes" then redFamily (getStatusColors st false).fill
     else if st = some "No" then greenFamily (getStatusColors st false).fill
     else neutralFamily (getStatusColors st false).fill) := by
  by_cases h1 : st = some "Yes"
  · simp [getStatusColors, h1, redFamily]
  · by_cases h2 : st = some "No"
    · simp [getStatusColors, h1, h2, greenFamily]
    · simp [getStatusColors, h1, h2, neutralFamily]

/-- C10: a non-empty candidate made only of qualifier words and whitespace
normalizes to the empty string; since the empty string is a substring of
every cleaned catalog name, the fuzzy fallback accepts the very first record
of any non-empty catalog (even when no record's uppercased name equals the
uppercased candidate). -/
theorem qualifier_only_name_matches_first
    (m : Option (List (String × String))) (g : String) (c : Council) (rest : List Council)
    (hg : g ≠ "") (hhit : mappingHit m g = none) (hnorm : normalizeGis g = "")
    (_hexact : ∀ r ∈ c :: rest, upperS r.name ≠ trimS (upperS g)) :
    findCouncilByName m (c :: rest) (some g) = some c := by
  have hpred : fuzzyPred g c = true := by
    unfold fuzzyPred
    rw [hnorm, inclS_empty]
    simp
  show (if g = "" then none
    else match mappingHit m g with
      | some k => mappingFind (c :: rest) k
      | none => fuzzyFind (c :: rest) g) = some c
  rw [if_neg hg, hhit]
  unfold fuzzyFind
  rw [List.find?_cons_of_pos _ hpred]

/-- C10 witness: `"City Council"` strips to the empty string and resolves to
the first record of the catalog, here `sydneyRec`, although neither record's
name equals `"CITY COUNCIL"`. -/
theorem qualifier_only_name_matches_first_witness :
    findCouncilByName none [sydneyRec, lithgowRec] (some "City Council") = some sydneyRec :=
  qualifier_only_name_matches_first none "City Council" sydneyRec [lithgowRec]
    (by decide) (by decide) (by decide) (by decide)

/-- C1 counterexample: with mapping `{"SYDNEY": "Council of the City of Sydney"}`
the exact mapping value hits the reverse index, both catalog lookups for
`"SYDNEY"` miss against the single record `"City Of Sydney"`, and the claim
would then fall through to the fuzzy match — which does find the record —
yet the resolver returns NotFound.  Moreover the reverse-index comparison is
case-sensitive: the lowercased candidate bypasses the mapping entirely and
is handled by the fuzzy fallback, which can return a different record than
the mapping path would. -/
theorem mapping_hit_counterexample :
    reverseLookup sydneyMapping "Council of the City of Sydney" = some "SYDNEY" ∧
    mappingFind [cityOfSydneyRec] "SYDNEY" = none ∧
    findCouncilByName (some sydneyMapping) [cityOfSydneyRec]
      (some "Council of the City of Sydney") = none ∧
    fuzzyFind [cityOfSydneyRec] "Council of the City of Sydney" = some cityOfSydneyRec ∧
    findCouncilByName (some sydneyMapping) [theOfRec, sydneyRec]
      (some "council of the city of sydney") = some theOfRec ∧
    mappingFind [theOfRec, sydneyRec] "SYDNEY" = some sydneyRec := by
  decide

/-- C1 (amended): the reverse-index comparison is an exact, case-sensitive
string lookup; on a hit with a non-empty mapped id the resolver returns the
catalog lookup result directly — NotFound included — and never falls through
to the fuzzy match. -/
theorem mapping_hit_returns_catalog_lookup (m : List (String × String)) (cs : List Council)
    (g k : String) (hg : g ≠ "") (hrev : reverseLookup m g = some k) (hk : k ≠ "") :
    findCouncilByName (some m) cs (some g) = mappingFind cs k := by
  have hhit : mappingHit (some m) g = some k := by
    show (match reverseLookup m g with
      | none => none
      | some k => if k = "" then none else some k) = some k
    rw [hrev]
    show (if k = "" then none else some k) = some k
    rw [if_neg hk]
  show (if g = "" then none
    else match mappingHit (some m) g with
      | some k => mappingFind cs k
      | none => fuzzyFind cs g) = mappingFind cs k
  rw [if_neg hg, hhit]

/-- C1 witness: the mapped candidate resolves to exactly the catalog lookup
result (here NotFound, the catalog having drifted from the mapping). -/
theorem mapping_hit_returns_catalog_lookup_witness :
    findCouncilByName (some sydneyMapping) [cityOfSydneyRec]
      (some "Council of the City of Sydney") = mappingFind [cityOfSydneyRec] "SYDNEY" :=
  mapping_hit_returns_catalog_lookup sydneyMapping [cityOfSydneyRec]
    "Council of the City of Sydney" "SYDNEY" (by decide) (by decide) (by decide)

/-- C2 counterexample: the search `"alpha beta"` is a case-insensitive
substring of the single-space concatenation of name, region and notes of
`alphaRec`, yet the tracker filter rejects the record (it tests the three
fields separately); conversely the utility `filterCouncils` accepts a search
matching only the contact email, which the claimed three-field concatenation
does not contain. -/
theorem search_filter_counterexample :
    inclS (lowerS ("Alpha" ++ " " ++ "Beta" ++ " " ++ "x")) (lowerS "alpha beta") = true ∧
    trackerFilterPred ⟨[], [], "alpha beta"⟩ alphaRec = false ∧
    utilsFilterPred ⟨[], [], "a@b.co"⟩ alphaRec = true ∧
    inclS (lowerS ("Alpha" ++ " " ++ "Beta" ++ " " ++ "x")) (lowerS "a@b.co") = false := by
  decide

/-- C2 (amended): under a criteria with empty status and region constraints
and a non-empty search, `getFilteredCouncils` keeps a record exactly when
the search is a case-insensitive substring of its name, of its region or of
its notes taken individually, while `filterCouncils` keeps it exactly when
the search is a case-insensitive substring of the single-space concatenation
of name, region, notes and contact email. -/
theorem search_filter_semantics (cs : List Council) (c : Council) (f : Filters)
    (hst : f.status = []) (hrg : f.region = []) (hs : f.search ≠ "") :
    (c ∈ getFilteredCouncils cs f ↔
      c ∈ cs ∧ (inclS (lowerS c.name) (lowerS f.search) ||
        inclS (lowerS c.region) (lowerS f.search) ||
        inclS (lowerS c.notes) (lowerS f.search)) = true) ∧
    (c ∈ filterCouncils cs f ↔
      c ∈ cs ∧ inclS (lowerS (utilsSearchText c)) (lowerS f.search) = true) := by
  have hs' : (f.search != "") = true := bne_iff_ne.mpr hs
  have h1 : trackerFilterPred f c =
      (inclS (lowerS c.name) (lowerS f.search) ||
        inclS (lowerS c.region) (lowerS f.search) ||
        inclS (lowerS c.notes) (lowerS f.search)) := by
    simp [trackerFilterPred, hst, hrg, hs']
  have h2 : utilsFilterPred f c = inclS (lowerS (utilsSearchText c)) (lowerS f.search) := by
    simp [utilsFilterPred, hst, hrg, hs']
  constructor
  · rw [getFilteredCouncils, List.mem_filter, h1]
  · rw [filterCouncils, List.mem_filter, h2]

/-- C2 witness: searching `"beta"` keeps `alphaRec` through its region field. -/
theorem search_filter_semantics_witness :
    (alphaRec ∈ getFilteredCouncils [alphaRec] ⟨[], [], "beta"⟩ ↔
      alphaRec ∈ [alphaRec] ∧ (inclS (lowerS alphaRec.name) (lowerS "beta") ||
        inclS (lowerS alphaRec.region) (lowerS "beta") ||
        inclS (lowerS alphaRec.notes) (lowerS "beta")) = true) ∧
    (alphaRec ∈ filterCouncils [alphaRec] ⟨[], [], "beta"⟩ ↔
      alphaRec ∈ [alphaRec] ∧
        inclS (lowerS (utilsSearchText alphaRec)) (lowerS "beta") = true) :=
  search_filter_semantics [alphaRec] alphaRec ⟨[], [], "beta"⟩ rfl rfl (by decide)

/-- C4 counterexample: under a criteria whose only constraint is the search
string, a feature resolving to a record excluded by that criteria (the
tracker filter rejects it) is NOT given the invisible style by the map's
filter closure — the map applies only the status constraint. -/
theorem filtered_style_counterexample :
    findCouncilByName none [sydneyRec] (extractName [("lga_name_2021", "Sydney")]) =
      some sydneyRec ∧
    trackerFilterPred ⟨[], [], "zzz"⟩ sydneyRec = false ∧
    applyFilterStyle ⟨[], [], "zzz"⟩ none [sydneyRec] [("lga_name_2021", "Sydney")] ≠
      emptyStyle := by
  decide

/-- C4 (amended): in the map's filter closure, a feature with no resolvable
record always gets the default gray style, a resolved record excluded by the
criteria's STATUS constraint gets the empty (invisible) style, and neither
the default style nor the base style function's pale unmapped style equals
the invisible style. -/
theorem filtered_style_semantics (filter : Filters) (m : Option (List (String × String)))
    (councils : List Council) (f : List (String × String)) :
    (findCouncilByName m councils (extractName f) = none →
      applyFilterStyle filter m councils f = getDefaultStyle) ∧
    (∀ c, findCouncilByName m councils (extractName f) = some c →
      (!filter.status.isEmpty && !statusIncludes filter.status c.status) = true →
      applyFilterStyle filter m councils f = emptyStyle) ∧
    getDefaultStyle ≠ emptyStyle ∧ lgaUnmappedStyle ≠ emptyStyle := by
  refine ⟨?_, ?_, by decide, by decide⟩
  · intro h
    simp [applyFilterStyle, h]
  · intro c h hx
    simp [applyFilterStyle, h, hx]

/-- C4 witness: a `Yes` record under a `["No"]` status filter renders as the
invisible style. -/
theorem filtered_style_semantics_witness :
    applyFilterStyle ⟨["No"], [], ""⟩ none [sydneyRec] [("lga_name_2021", "Sydney")] =
      emptyStyle :=
  (filtered_style_semantics ⟨["No"], [], ""⟩ none [sydneyRec]
    [("lga_name_2021", "Sydney")]).2.1 sydneyRec (by decide) (by decide)

/-- C3 counterexample: a raw entry with status `"Maybe"` is flagged by
`validateCouncilData`, yet `initializeApp` returns a successful result whose
catalog contains the record with the out-of-range status stored verbatim —
construction is not aborted. -/
theorem invalid_status_counterexample :
    (validateCouncilData badStatusRaw).isValid = false ∧
    initApp [("LITHGOW CITY", badStatusRaw)] =
      Except.ok ⟨["LITHGOW CITY: Invalid SGAR status: Maybe. Must be one of: Yes, No, Unknown"],
        [⟨"Lithgow City", some "Maybe", "Central West", "n", "a@b.co", "2025-01-22"⟩]⟩ := by
  decide

/-- C3 (amended): an out-of-range non-empty status value is reported by
`validateCouncilData` as a validation error, but `initializeApp` only
collects it as a warning and constructs the catalog anyway, storing the
out-of-range value unchanged in the corresponding record. -/
theorem invalid_status_nonfatal (raw : List (String × RawCouncilData))
    (name : String) (d : RawCouncilData) (s : String)
    (hmem : (name, d) ∈ raw) (hsg : d.sgars = some s) (hs : s ≠ "")
    (hval : validStatuses.contains s = false) :
    (validateCouncilData d).isValid = false ∧
    initApp raw = Except.ok ⟨initWarnings raw, buildCouncils raw⟩ ∧
    (⟨titleCase name, some s, getCouncilRegion name, d.notes.getD "", d.email.getD "",
      "2025-01-22"⟩ : Council) ∈ buildCouncils raw := by
  have hs' : (s != "") = true := bne_iff_ne.mpr hs
  refine ⟨?_, ?_, ?_⟩
  · have hmsg : ("Invalid SGAR status: " ++ s ++ ". Must be one of: " ++ joinComma validStatuses)
        ∈ (validateCouncilData d).errors := by
      simp [validateCouncilData, hsg]
      exact Or.inr (Or.inr (Or.inl ⟨hs, by simpa using hval⟩))
    have hne : (validateCouncilData d).errors ≠ [] := List.ne_nil_of_mem hmsg
    have hlem : (validateCouncilData d).isValid = (validateCouncilData d).errors.isEmpty := rfl
    rw [hlem]
    simpa using hne
  · have hne : raw ≠ [] := List.ne_nil_of_mem hmem
    rw [initApp, if_neg (by simpa using hne)]
  · refine List.mem_map.mpr ⟨(name, d), hmem, ?_⟩
    simp [hsg]

/-- C8 counterexample: normalization is not idempotent.  Stripping the
single word `CITY` out of `MUNICIPALITY CITY OF` makes the phrase
`MUNICIPALITY OF` adjacent in the output, and a second pass strips it
entirely, so `normalize (normalize x)` differs from `normalize x`. -/
theorem normalize_not_idempotent :
    normalizeGis "MUNICIPALITY CITY OF" = "MUNICIPALITY OF" ∧
    normalizeGis (normalizeGis "MUNICIPALITY CITY OF") = "" ∧
    normalizeGis (normalizeGis "MUNICIPALITY CITY OF") ≠
      normalizeGis "MUNICIPALITY CITY OF" := by
  refine ⟨by decide, by decide, by decide⟩

/-- C8 (amended): `normalize (normalize x) = normalize x` holds exactly when
the qualifier-stripping pass removes nothing further from `normalize x`
(the output is always uppercase-, trim- and whitespace-collapse-stable, so
only a re-materialized qualifier phrase can break idempotence). -/
theorem normalize_idem_of_strip_fixed (x : String)
    (h : stripGisS (normalizeGis x) = normalizeGis x) :
    normalizeGis (normalizeGis x) = normalizeGis x := by
  show trimS (collapseS (stripGisS (trimS (upperS (normalizeGis x))))) = normalizeGis x
  rw [upperS_normalizeGis, trimS_normalizeGis, h, collapseS_normalizeGis, trimS_normalizeGis]

/-- C8 witness: `"Lithgow City Council"` normalizes to `"LITHGOW"`, which the
stripping pass leaves unchanged, so normalization is idempotent there. -/
theorem normalize_idem_of_strip_fixed_witness :
    stripGisS (normalizeGis "Lithgow City Council") = normalizeGis "Lithgow City Council" ∧
    normalizeGis (normalizeGis "Lithgow City Council") =
      normalizeGis "Lithgow City Council" :=
  ⟨by decide, normalize_idem_of_strip_fixed "Lithgow City Council" (by decide)⟩

/-- C3 witness: the amended behavior at the concrete `"Maybe"` input. -/
theorem invalid_status_nonfatal_witness :
    (validateCouncilData badStatusRaw).isValid = false ∧
    initApp [("LITHGOW CITY", badStatusRaw)] =
      Except.ok ⟨initWarnings [("LITHGOW CITY", badStatusRaw)],
        buildCouncils [("LITHGOW CITY", badStatusRaw)]⟩ ∧
    (⟨titleCase "LITHGOW CITY", some "Maybe", getCouncilRegion "LITHGOW CITY",
      badStatusRaw.notes.getD "", badStatusRaw.email.getD "", "2025-01-22"⟩ : Council) ∈
      buildCouncils [("LITHGOW CITY", badStatusRaw)] :=
  invalid_status_nonfatal [("LITHGOW CITY", badStatusRaw)] "LITHGOW CITY" badStatusRaw
    "Maybe" (by decide) rfl (by decide) (by decide)

end SgarTool
